import Mathlib

/-!
Shallow embedding of the per-frame animation core of the ethereal-patronus
repository (grass recycling, trail-particle ring buffer, emission timer,
hologram shading, camera bounds), translated from `src/anim2.js` and
`src/script.js`.  Float arithmetic is modelled by exact rationals where the
source only adds, multiplies and compares, and by real numbers where the
source calls sqrt / sin / cos / pow.
-/

namespace Patronus

/-- `const grassRadius = 12` (anim2.js line 208). -/
def grassRadius : ℚ := 12

/-- `const runSpeed = 8` (anim2.js line 419). -/
def runSpeed : ℚ := 8

/-- One per-frame advance of a blade's `currentZ` (anim2.js lines 443-449):
`blade.currentZ -= runSpeed * delta;` then
`if (blade.currentZ < -grassRadius) blade.currentZ += grassRadius * 2;`.
The radius and speed are parameters so that the recycling step can be
analysed at the program's constants and at arbitrary values. -/
def advanceBladeZ (R speed delta z : ℚ) : ℚ :=
  let z' := z - speed * delta
  if z' < -R then z' + R * 2 else z'

/-- A finite sequence of per-frame advances, one per element of `deltas`. -/
def advanceBladeZMany (R speed : ℚ) : List ℚ → ℚ → ℚ
  | [], z => z
  | d :: ds, z => advanceBladeZMany R speed ds (advanceBladeZ R speed d z)

/-- One slot of the trail ring buffer (anim2.js lines 301-307): position,
velocity, remaining lifetime, alpha and size.  The color and `aId`
attributes are constant or never read back by the simulation and are not
modelled. -/
structure TrailParticle where
  posX : ℚ
  posY : ℚ
  posZ : ℚ
  velX : ℚ
  velY : ℚ
  velZ : ℚ
  lifetime : ℚ
  alpha : ℚ
  size : ℚ
  deriving DecidableEq, Repr

/-- `const maxTrailParticles = 50000` (anim2.js line 299). -/
def maxTrailParticles : ℕ := 50000

/-- `const emissionRate = 0.02` (anim2.js line 389). -/
def emissionRate : ℚ := 2 / 100

/-- `const trailMaxLife = 4` (anim2.js line 390). -/
def trailMaxLife : ℚ := 4

/-- `const particlesPerEmit = 20` (anim2.js line 559). -/
def particlesPerEmit : ℕ := 20

/-- Initial state of trail slot i (anim2.js lines 310-326): position 0,
velocity 0, `trailLifetimes[i] = 0`, `trailAlphas[i] = 0.6 + random()*0.2`,
`trailSizes[i] = 0.3`.  `uAlpha` stands for the random draw. -/
def initTrailParticle (uAlpha : ℚ) : TrailParticle :=
  { posX := 0, posY := 0, posZ := 0
    velX := 0, velY := 0, velZ := 0
    lifetime := 0
    alpha := 6 / 10 + uAlpha * (2 / 10)
    size := 3 / 10 }

/-- The particle written at `currentTrailIndex` during an emission burst
(anim2.js lines 563-577): the randomised spawn position and burst velocity
are taken as parameters, `trailLifetimes = trailMaxLife`,
`trailAlphas = 0.8`, `trailSizes = 0.8 + random()*1.4` (`uSize` is the
random draw). -/
def spawnParticle (px py pz vx vy vz uSize : ℚ) : TrailParticle :=
  { posX := px, posY := py, posZ := pz
    velX := vx, velY := vy, velZ := vz
    lifetime := trailMaxLife
    alpha := 8 / 10
    size := 8 / 10 + uSize * (14 / 10) }

/-- One pass of the age-and-integrate loop body for one slot (anim2.js
lines 587-608).  Active slots (`lifetime > 0`): `lifetime -= delta`, the
velocity is damped by 0.995, the position integrates the damped velocity,
`alpha = max(0, lifetime / trailMaxLife)` with the new lifetime, and the
size shrinks by 0.998.  Expired slots are hidden: y sentinel -1000 and
alpha 0. -/
def ageTrailParticle (delta : ℚ) (p : TrailParticle) : TrailParticle :=
  if 0 < p.lifetime then
    let lt := p.lifetime - delta
    let vx := p.velX * (995 / 1000)
    let vy := p.velY * (995 / 1000)
    let vz := p.velZ * (995 / 1000)
    { posX := p.posX + vx * delta
      posY := p.posY + vy * delta
      posZ := p.posZ + vz * delta
      velX := vx, velY := vy, velZ := vz
      lifetime := lt
      alpha := max 0 (lt / trailMaxLife)
      size := p.size * (998 / 1000) }
  else
    { p with posY := -1000, alpha := 0 }

/-- Sequential ring-buffer writes (anim2.js lines 562-580): each particle
of `ps` is stored at the current write index, then
`currentTrailIndex = (currentTrailIndex + 1) % maxTrailParticles`.  The
buffer is a total map from slot index to slot content. -/
def writeSlots (buf : ℕ → TrailParticle) (start : ℕ) :
    List TrailParticle → (ℕ → TrailParticle)
  | [] => buf
  | p :: ps =>
      writeSlots (Function.update buf start p) ((start + 1) % maxTrailParticles) ps

/-- The most recent element of `ps` whose write position (starting at
`start`, stepping by `(·+1) % maxTrailParticles`) is the slot `i`, if any.
This is the specification side of the ring-buffer overwrite discipline. -/
def lastWrite (start : ℕ) (ps : List TrailParticle) (i : ℕ) : Option TrailParticle :=
  match ps with
  | [] => none
  | p :: rest =>
      match lastWrite ((start + 1) % maxTrailParticles) rest i with
      | some q => some q
      | none => if start = i then some p else none

/-- The emission while-loop (anim2.js lines 541-583) restricted to its
timer arithmetic: `while (emissionTimer >= emissionRate) { ...burst...;
emissionTimer -= emissionRate; }`.  Returns the number of bursts performed
and the leftover timer. -/
def emissionLoop (timer : ℚ) : ℕ × ℚ :=
  if h : emissionRate ≤ timer then
    let r := emissionLoop (timer - emissionRate)
    (r.1 + 1, r.2)
  else
    (0, timer)
  termination_by (⌈timer * 50⌉ : ℤ).toNat
  decreasing_by
    have h50 : (1 : ℚ) ≤ timer * 50 := by
      have : (2 : ℚ) / 100 ≤ timer := h
      nlinarith
    have hsub : ((timer - emissionRate) * 50 : ℚ) = timer * 50 - 1 := by
      norm_num [emissionRate]; ring
    have hceil : ⌈(timer - emissionRate) * 50⌉ = ⌈timer * 50⌉ - 1 := by
      rw [hsub]
      exact_mod_cast Int.ceil_sub_int (timer * 50) 1
    have hone : (1 : ℤ) ≤ ⌈timer * 50⌉ := by
      calc (1 : ℤ) = ⌈(1 : ℚ)⌉ := by norm_num
        _ ≤ ⌈timer * 50⌉ := Int.ceil_le_ceil h50
    omega

/-- `grassRadius` as a real number, for the parts of the frame loop that
mix it with sqrt / trigonometric values. -/
noncomputable def grassRadiusR : ℝ := (grassRadius : ℚ)

/-- `runSpeed` as a real number. -/
noncomputable def runSpeedR : ℝ := (runSpeed : ℚ)

/-- `Math.hypot(a, b)` and the explicit `Math.sqrt(a*a + b*b)` of the
visibility test (anim2.js lines 455, 459-461, 619). -/
noncomputable def hypotR (a b : ℝ) : ℝ := Real.sqrt (a * a + b * b)

/-- `const angle = Math.random() * Math.PI * 2` (anim2.js line 223);
`ua` stands for the uniform draw. -/
noncomputable def bladeAngle (ua : ℝ) : ℝ := ua * Real.pi * 2

/-- `const radius = Math.sqrt(Math.random()) * grassRadius`
(anim2.js line 224); `ur` stands for the uniform draw. -/
noncomputable def bladeRadius (ur : ℝ) : ℝ := Real.sqrt ur * grassRadiusR

/-- `const baseX = Math.cos(angle) * radius` (anim2.js line 225). -/
noncomputable def bladeBaseX (ua ur : ℝ) : ℝ :=
  Real.cos (bladeAngle ua) * bladeRadius ur

/-- `const baseZ = (Math.random() - 0.5) * grassRadius * 2`
(anim2.js line 227); `uz` stands for the uniform draw, independent of the
polar draws. -/
noncomputable def bladeBaseZ (uz : ℝ) : ℝ := (uz - 1 / 2) * grassRadiusR * 2

/-- Modelled from the spec: the z coordinate a blade would get if, as the
spec claims, `baseZ` were derived from the same polar sample as `baseX`
(`sin(angle) * radius`).  Compared against `bladeBaseZ`, which is what the
source computes. -/
noncomputable def specPolarBaseZ (ua ur : ℝ) : ℝ :=
  Real.sin (bladeAngle ua) * bladeRadius ur

/-- The visibility test (anim2.js lines 454-456):
`currentDist = Math.sqrt(grassX*grassX + grassZ*grassZ)` and
`isVisible = currentDist <= grassRadius`, with the radius a parameter. -/
def isVisible (x z R : ℝ) : Prop := hypotR x z ≤ R

/-- Fixed per-blade shape and animation parameters sampled at field
initialization (anim2.js lines 225-230). -/
structure BladeShape where
  baseX : ℝ
  height : ℝ
  curve : ℝ
  randomOffset : ℝ

/-- `const particlesPerBlade = 20` (anim2.js line 207). -/
def particlesPerBlade : ℕ := 20

/-- The height fraction `t = i / (particlesPerBlade - 1)` of particle `i`
in a blade (anim2.js lines 251, 474). -/
noncomputable def tFrac (i : ℕ) : ℝ := (i : ℝ) / ((particlesPerBlade : ℝ) - 1)

/-- `influence = Math.pow(t, 1.2)` (anim2.js line 475). -/
noncomputable def influence (i : ℕ) : ℝ := tFrac i ^ (1.2 : ℝ)

/-- Original particle x offset `baseX + curve * t * t` stored at
initialization (anim2.js line 252). -/
noncomputable def origPosX (b : BladeShape) (i : ℕ) : ℝ :=
  b.baseX + b.curve * tFrac i * tFrac i

/-- Original particle y offset `t * height` stored at initialization
(anim2.js line 253). -/
noncomputable def origPosY (b : BladeShape) (i : ℕ) : ℝ :=
  tFrac i * b.height

/-- `const worldOffset = time * runSpeed` (anim2.js line 420). -/
noncomputable def worldOffset (time : ℝ) : ℝ := time * runSpeedR

/-- Ripple source 1 x position `Math.cos(time * 0.3) * 4`
(anim2.js line 428). -/
noncomputable def ripple1X (time : ℝ) : ℝ := Real.cos (time * 0.3) * 4

/-- Ripple source 1 z position `-worldOffset + Math.sin(time * 0.3) * 3`
(anim2.js line 429). -/
noncomputable def ripple1Z (time : ℝ) : ℝ :=
  -worldOffset time + Real.sin (time * 0.3) * 3

/-- Ripple source 2 x position `Math.cos(time * 0.4 + PI) * 3`
(anim2.js line 431). -/
noncomputable def ripple2X (time : ℝ) : ℝ :=
  Real.cos (time * 0.4 + Real.pi) * 3

/-- Ripple source 2 z position `-worldOffset + Math.sin(time * 0.4 + PI) * 4`
(anim2.js line 432). -/
noncomputable def ripple2Z (time : ℝ) : ℝ :=
  -worldOffset time + Real.sin (time * 0.4 + Real.pi) * 4

/-- Ripple source 3 x position `Math.cos(time * 0.25 + PI * 0.5) * 5`
(anim2.js line 434). -/
noncomputable def ripple3X (time : ℝ) : ℝ :=
  Real.cos (time * 0.25 + Real.pi * 0.5) * 5

/-- Ripple source 3 z position
`-worldOffset + Math.sin(time * 0.25 + PI * 0.5) * 3` (anim2.js line 435). -/
noncomputable def ripple3Z (time : ℝ) : ℝ :=
  -worldOffset time + Real.sin (time * 0.25 + Real.pi * 0.5) * 3

/-- `rippleEffect1` (anim2.js lines 459, 463-464):
`max(0, 1 - dist1/6) * sin(time*2 - dist1*0.3) * 1.5` with
`dist1 = hypot(grassX - ripple1X, grassZ - ripple1Z)`. -/
noncomputable def rippleEffect1 (x z time : ℝ) : ℝ :=
  let dist1 := hypotR (x - ripple1X time) (z - ripple1Z time)
  max 0 (1 - dist1 / 6) * Real.sin (time * 2 - dist1 * 0.3) * 1.5

/-- `rippleEffect2` (anim2.js lines 460, 465-466). -/
noncomputable def rippleEffect2 (x z time : ℝ) : ℝ :=
  let dist2 := hypotR (x - ripple2X time) (z - ripple2Z time)
  max 0 (1 - dist2 / 5) * Real.sin (time * 2.2 - dist2 * 0.35) * 1.2

/-- `rippleEffect3` (anim2.js lines 461, 467-468). -/
noncomputable def rippleEffect3 (x z time : ℝ) : ℝ :=
  let dist3 := hypotR (x - ripple3X time) (z - ripple3Z time)
  max 0 (1 - dist3 / 7) * Real.sin (time * 1.8 - dist3 * 0.25) * 1.4

/-- `totalRippleBase = rippleEffect1 + rippleEffect2 + rippleEffect3`
(anim2.js line 469). -/
noncomputable def totalRippleBase (x z time : ℝ) : ℝ :=
  rippleEffect1 x z time + rippleEffect2 x z time + rippleEffect3 x z time

/-- Primary sway wave `sin(time + randomOffset + grassZ*0.1) * influence`
(anim2.js lines 477-478). -/
noncomputable def wave1 (b : BladeShape) (z time : ℝ) (i : ℕ) : ℝ :=
  Real.sin (time + b.randomOffset + z * 0.1) * influence i

/-- Secondary cross wave `cos(time*0.8 + randomOffset*2 + grassX*0.08) *
influence` (anim2.js lines 479-481). -/
noncomputable def wave2 (b : BladeShape) (time : ℝ) (i : ℕ) : ℝ :=
  Real.cos (time * 0.8 + b.randomOffset * 2 + b.baseX * 0.08) * influence i

/-- Lateral wave `sin(time*0.6 + grassZ*0.15 + grassX*0.12) * influence`
(anim2.js lines 482-483). -/
noncomputable def wave3 (b : BladeShape) (z time : ℝ) (i : ℕ) : ℝ :=
  Real.sin (time * 0.6 + z * 0.15 + b.baseX * 0.12) * influence i

/-- Displaced x coordinate written for a visible blade's particle
(anim2.js lines 487-491). -/
noncomputable def displacedX (b : BladeShape) (z time : ℝ) (i : ℕ) : ℝ :=
  origPosX b i + wave1 b z time i * 0.4 + wave2 b time i * 0.2 +
    totalRippleBase b.baseX z time * influence i * 0.4

/-- Displaced z coordinate written for a visible blade's particle
(anim2.js lines 493-494). -/
noncomputable def displacedZ (b : BladeShape) (z time : ℝ) (i : ℕ) : ℝ :=
  z + wave3 b z time i * 0.15 + totalRippleBase b.baseX z time * influence i * 0.25

open Classical in
/-- The per-particle write of the grass update (anim2.js lines 486-498):
a visible blade's particle gets freshly computed x, y, z; an invisible
blade's particle only has its y entry overwritten with the sentinel -1000,
its x and z entries are not written.  `p` is the (x, y, z) triple the
position buffer held before the frame. -/
noncomputable def updateGrassParticle (b : BladeShape) (time z : ℝ) (i : ℕ)
    (p : ℝ × ℝ × ℝ) : ℝ × ℝ × ℝ :=
  if isVisible b.baseX z grassRadiusR then
    (displacedX b z time i, origPosY b i, displacedZ b z time i)
  else
    (p.1, -1000, p.2.2)

open Classical in
/-- The blade-Z advance of one frame over the reals (anim2.js lines
443-449), as it appears inside the grass update. -/
noncomputable def advanceBladeZR (delta z : ℝ) : ℝ :=
  let z' := z - runSpeedR * delta
  if z' < -grassRadiusR then z' + grassRadiusR * 2 else z'

/-- Several frames of the grass update for one particle of one blade:
each frame carries a `(time, delta)` pair, advances `currentZ`, then
rewrites the particle's buffer entry. -/
noncomputable def runGrassFrames (b : BladeShape) (i : ℕ) :
    List (ℝ × ℝ) → ℝ → ℝ × ℝ × ℝ → ℝ × (ℝ × ℝ × ℝ)
  | [], z, p => (z, p)
  | (time, delta) :: rest, z, p =>
      runGrassFrames b i rest (advanceBladeZR delta z)
        (updateGrassParticle b time (advanceBladeZR delta z) i p)

/-- The blade stays outside the visibility disk at every frame of `ctxs`
(evaluated at the z position each frame's test actually sees). -/
def allInvisible (b : BladeShape) : List (ℝ × ℝ) → ℝ → Prop
  | [], _ => True
  | (_, delta) :: rest, z =>
      ¬ isVisible b.baseX (advanceBladeZR delta z) grassRadiusR ∧
        allInvisible b rest (advanceBladeZR delta z)

/-- GLSL `clamp(x, lo, hi) = min(max(x, lo), hi)`. -/
noncomputable def clampR (x lo hi : ℝ) : ℝ := min (max x lo) hi

/-- The Fresnel rim term of the hologram fragment shading
(anim2.js line 87): `pow(1.0 - abs(dot(viewDirection, normal)), 2.0)`,
with `d` the dot product of the normalized view direction and normal. -/
noncomputable def fresnelTerm (d : ℝ) : ℝ := (1 - |d|) ^ (2 : ℝ)

/-- Alpha of the deer hologram fragment shader in anim2.js (line 108):
`alpha = clamp(fresnel * 0.85 + 0.45, 0.0, 1.0)`. -/
noncomputable def hologramAlphaDeer (fresnel : ℝ) : ℝ :=
  clampR (fresnel * 0.85 + 0.45) 0 1

/-- Alpha of the hologram fragment shader variant in the third segment of
script.js (line 608): `alpha = fresnel * 0.7 + 0.15`. -/
noncomputable def hologramAlphaVariant (fresnel : ℝ) : ℝ :=
  fresnel * 0.7 + 0.15

open Classical in
/-- Camera clamp rule (a) (anim2.js lines 619, 625-632):
`camHorizontalDist = Math.hypot(camera.position.x, camera.position.z)`;
if it exceeds `maxHoriz = grassRadius * 1.2`, both horizontal components
are multiplied by `scale = maxHoriz / camHorizontalDist`; y is untouched.
Returns the camera position as (x, y, z). -/
noncomputable def camClampA (x y z R : ℝ) : ℝ × ℝ × ℝ :=
  let camHorizontalDist := hypotR x z
  let maxHoriz := R * 1.2
  if maxHoriz < camHorizontalDist then
    (x * (maxHoriz / camHorizontalDist), y, z * (maxHoriz / camHorizontalDist))
  else
    (x, y, z)

/-! ## Helper lemmas -/

theorem emissionLoop_step (timer : ℚ) (h : emissionRate ≤ timer) :
    emissionLoop timer =
      ((emissionLoop (timer - emissionRate)).1 + 1,
        (emissionLoop (timer - emissionRate)).2) := by
  rw [emissionLoop]
  simp [h]

theorem emissionLoop_stop (timer : ℚ) (h : ¬ emissionRate ≤ timer) :
    emissionLoop timer = (0, timer) := by
  rw [emissionLoop]
  simp [h]

theorem writeSlots_eq_lastWrite (ps : List TrailParticle) :
    ∀ (buf : ℕ → TrailParticle) (start i : ℕ),
      writeSlots buf start ps i = (lastWrite start ps i).getD (buf i) := by
  induction ps with
  | nil => intro buf start i; rfl
  | cons p rest ih =>
      intro buf start i
      show writeSlots (Function.update buf start p)
        ((start + 1) % maxTrailParticles) rest i = _
      rw [ih]
      rcases hlw : lastWrite ((start + 1) % maxTrailParticles) rest i with _ | q
      · rcases eq_or_ne start i with hsi | hsi
        · subst hsi
          simp [lastWrite, hlw, Function.update_apply]
        · simp [lastWrite, hlw, hsi, Function.update_apply, Ne.symm hsi]
      · simp [lastWrite, hlw]

theorem lastWrite_mem (ps : List TrailParticle) :
    ∀ (start i : ℕ) (q : TrailParticle), lastWrite start ps i = some q → q ∈ ps := by
  induction ps with
  | nil => intro start i q h; simp [lastWrite] at h
  | cons p rest ih =>
      intro start i q h
      rw [lastWrite] at h
      rcases hlw : lastWrite ((start + 1) % maxTrailParticles) rest i with _ | q'
      · rw [hlw] at h
        rcases eq_or_ne start i with hsi | hsi
        · simp [hsi] at h
          simp [h]
        · simp [hsi] at h
      · rw [hlw] at h
        simp at h
        subst h
        exact List.mem_cons_of_mem _ (ih _ _ _ hlw)

theorem lastWrite_isSome (ps : List TrailParticle) :
    ∀ (start i j : ℕ), start < maxTrailParticles → j < ps.length →
      (start + j) % maxTrailParticles = i → (lastWrite start ps i).isSome := by
  induction ps with
  | nil => intro start i j _ hj _; simp at hj
  | cons p rest ih =>
      intro start i j hstart hj hij
      rw [lastWrite]
      rcases hlw : lastWrite ((start + 1) % maxTrailParticles) rest i with _ | q
      · rcases j with _ | j'
        · have : start = i := by
            simpa [Nat.mod_eq_of_lt hstart] using hij
          simp [this]
        · exfalso
          have hlt : (start + 1) % maxTrailParticles < maxTrailParticles :=
            Nat.mod_lt _ (by norm_num [maxTrailParticles])
          have hidx : ((start + 1) % maxTrailParticles + j') % maxTrailParticles = i := by
            rw [Nat.mod_add_mod]
            have : start + 1 + j' = start + (j' + 1) := by omega
            rw [this]
            exact hij
          have := ih _ i j' hlt (by simpa using Nat.lt_of_succ_lt_succ hj) hidx
          rw [hlw] at this
          simp at this
      · simp

theorem lastWrite_eq_none (ps : List TrailParticle) :
    ∀ (start i : ℕ), start < maxTrailParticles →
      (∀ j, j < ps.length → (start + j) % maxTrailParticles ≠ i) →
      lastWrite start ps i = none := by
  induction ps with
  | nil => intro start i _ _; rfl
  | cons p rest ih =>
      intro start i hstart hmiss
      rw [lastWrite]
      have hlt : (start + 1) % maxTrailParticles < maxTrailParticles :=
        Nat.mod_lt _ (by norm_num [maxTrailParticles])
      have hrest : lastWrite ((start + 1) % maxTrailParticles) rest i = none := by
        refine ih _ i hlt ?_
        intro j hj
        have : ((start + 1) % maxTrailParticles + j) % maxTrailParticles =
            (start + (j + 1)) % maxTrailParticles := by
          rw [Nat.mod_add_mod]
          congr 1
          omega
        rw [this]
        exact hmiss (j + 1) (by simpa using Nat.succ_lt_succ hj)
      rw [hrest]
      have : start ≠ i := by
        have := hmiss 0 (by simp)
        simpa [Nat.mod_eq_of_lt hstart] using this
      simp [this]

theorem advanceBladeZ_mem (R speed delta z : ℚ) (hs : 0 ≤ speed) (hd : 0 ≤ delta)
    (hcap : speed * delta ≤ R * 2) (hlo : -R ≤ z) (hhi : z < R) :
    -R ≤ advanceBladeZ R speed delta z ∧ advanceBladeZ R speed delta z < R := by
  have hsd : 0 ≤ speed * delta := mul_nonneg hs hd
  rw [advanceBladeZ]
  rcases lt_or_le (z - speed * delta) (-R) with hwrap | hnowrap
  · rw [if_pos hwrap]
    constructor
    · linarith
    · linarith
  · rw [if_neg (not_lt.mpr hnowrap)]
    constructor
    · exact hnowrap
    · linarith

/-! ## Claim theorems -/

/-- C1 (counterexample): as stated — arbitrary non-negative deltas — the
recycling invariant fails: with `R = 12`, `runSpeed = 8`, a single advance
with `delta = 10` takes `currentZ = 0` (inside `[-R, R)`) to `-56`,
outside `[-R, R)`, because the single `+2R` wrap cannot recover a
decrement larger than `2R`. -/
theorem grass_recycle_fails_large_delta :
    (0 : ℚ) ≤ 10 ∧ (-(12 : ℚ) ≤ 0 ∧ (0 : ℚ) < 12) ∧
      advanceBladeZMany 12 8 [10] 0 = -56 ∧
      ¬ (-(12 : ℚ) ≤ advanceBladeZMany 12 8 [10] 0 ∧
          advanceBladeZMany 12 8 [10] 0 < 12) := by
  norm_num [advanceBladeZMany, advanceBladeZ]

/-- C1 (amended): for every grass blade, after any finite sequence of
per-frame advance steps (each step: `currentZ -= speed*delta`, then
`currentZ += 2R` once if `currentZ < -R`), with non-negative deltas each
satisfying `speed * delta ≤ 2R` (guaranteed in the program, where delta is
capped at 0.033 and `runSpeed = 8`, so the decrement is at most 0.264 ≤ 24)
and `currentZ` initially in `[-R, R)`, the blade's `currentZ` stays in
`[-R, R)`. -/
theorem grass_recycle_invariant (R speed : ℚ) (deltas : List ℚ) (z : ℚ)
    (hs : 0 ≤ speed)
    (hd : ∀ d ∈ deltas, 0 ≤ d ∧ speed * d ≤ R * 2)
    (hz : -R ≤ z ∧ z < R) :
    -R ≤ advanceBladeZMany R speed deltas z ∧
      advanceBladeZMany R speed deltas z < R := by
  induction deltas generalizing z with
  | nil => exact hz
  | cons d ds ih =>
      have hd0 := hd d (List.mem_cons_self d ds)
      have step := advanceBladeZ_mem R speed d z hs hd0.1 hd0.2 hz.1 hz.2
      exact ih _ (fun e he => hd e (List.mem_cons_of_mem _ he)) step

theorem grass_recycle_invariant_witness :
    -(12 : ℚ) ≤ advanceBladeZMany 12 8 [1 / 100, 33 / 1000] 0 ∧
      advanceBladeZMany 12 8 [1 / 100, 33 / 1000] 0 < 12 :=
  grass_recycle_invariant 12 8 [1 / 100, 33 / 1000] 0 (by norm_num)
    (by
      intro d hd
      simp only [List.mem_cons, List.mem_singleton] at hd
      rcases hd with h | h | h
      · subst h; norm_num
      · subst h; norm_num
      · simp at h)
    (by norm_num)

/-- C3 (counterexample): in the initial state before the first frame
(anim2.js lines 310-326), every trail slot has `lifetime = 0 ≤ 0` but
`alpha = 0.6 + random()*0.2 ≠ 0` (shown at random draw 0), so the claimed
equivalence `lifetime ≤ 0 ⟺ alpha = 0` fails at initialization. -/
theorem trail_init_alpha_nonzero :
    (initTrailParticle 0).lifetime ≤ 0 ∧ (initTrailParticle 0).alpha ≠ 0 ∧
      ¬ ((initTrailParticle 0).lifetime ≤ 0 ↔ (initTrailParticle 0).alpha = 0) := by
  norm_num [initTrailParticle]

/-- C3 (amended): after any aging pass (i.e. at every frame boundary from
the first frame on), a trail slot satisfies `lifetime ≤ 0 ⟺ alpha = 0`,
and while a slot stays in the buffer its alpha is monotonically
non-increasing across subsequent frames; in the initial state before the
first frame the equivalence does not hold (slots have `lifetime = 0` with
`alpha ∈ [0.6, 0.8]`). -/
theorem trail_lifetime_alpha_invariant (p : TrailParticle) (d₁ d₂ : ℚ)
    (h₂ : 0 ≤ d₂) :
    ((ageTrailParticle d₁ p).lifetime ≤ 0 ↔ (ageTrailParticle d₁ p).alpha = 0) ∧
      (ageTrailParticle d₂ (ageTrailParticle d₁ p)).alpha ≤
        (ageTrailParticle d₁ p).alpha := by
  have hshape : ∀ (r : TrailParticle) (d : ℚ),
      (ageTrailParticle d r).alpha =
          max 0 ((ageTrailParticle d r).lifetime / trailMaxLife) ∨
        ((ageTrailParticle d r).alpha = 0 ∧ (ageTrailParticle d r).lifetime ≤ 0) := by
    intro r d
    by_cases hr : 0 < r.lifetime
    · left
      simp [ageTrailParticle, hr]
    · right
      simp [ageTrailParticle, hr]
      exact not_lt.mp hr
  obtain ⟨q, hq⟩ : ∃ q, ageTrailParticle d₁ p = q := ⟨_, rfl⟩
  have hq1 := hshape p d₁
  rw [hq] at hq1 ⊢
  constructor
  · rcases hq1 with h | h
    · rw [h, max_eq_left_iff, trailMaxLife]
      constructor <;> intro <;> linarith
    · simp [h.1, h.2]
  · rcases hq1 with h | h
    · by_cases hql : 0 < q.lifetime
      · have hstep : (ageTrailParticle d₂ q).alpha =
            max 0 ((q.lifetime - d₂) / trailMaxLife) := by
          simp [ageTrailParticle, hql]
        rw [hstep, h, trailMaxLife]
        have hmono : q.lifetime - d₂ ≤ q.lifetime := by linarith
        exact max_le_max le_rfl (by linarith)
      · have hstep : (ageTrailParticle d₂ q).alpha = 0 := by
          simp [ageTrailParticle, hql]
        rw [hstep, h]
        exact le_max_left _ _
    · have hstep : (ageTrailParticle d₂ q).alpha = 0 := by
        simp [ageTrailParticle, not_lt.mpr h.2]
      rw [hstep, h.1]

theorem trail_lifetime_alpha_invariant_witness :
    ((ageTrailParticle 1 (spawnParticle 0 0 0 0 0 0 0)).lifetime ≤ 0 ↔
        (ageTrailParticle 1 (spawnParticle 0 0 0 0 0 0 0)).alpha = 0) ∧
      (ageTrailParticle 1 (ageTrailParticle 1 (spawnParticle 0 0 0 0 0 0 0))).alpha ≤
        (ageTrailParticle 1 (spawnParticle 0 0 0 0 0 0 0)).alpha :=
  trail_lifetime_alpha_invariant (spawnParticle 0 0 0 0 0 0 0) 1 1 (by norm_num)

/-- C6: a blade seeded at `(baseX = 0, baseZ = 0)` in a field of radius
`R = 12`, advanced once with `runSpeed = 8` and `delta = 2.0`, ends with
`currentZ = 8`: the decrement yields `0 - 16 = -16 < -12`, so the `+2R`
wrap adds 24, giving 8. -/
theorem blade_advance_scenario :
    (0 - runSpeed * 2 : ℚ) = -16 ∧ (-16 : ℚ) < -grassRadius ∧
      advanceBladeZ grassRadius runSpeed 2 0 = 8 := by
  norm_num [advanceBladeZ, grassRadius, runSpeed]

/-- C4: with ring-buffer capacity C (`maxTrailParticles = 50000`), writing
more than C particles in total (starting from write index 0, which is the
program's initial `currentTrailIndex`) leaves every one of the C slots
holding a live particle (so exactly C live slots), and slot `i` holds the
most recent particle whose write position was `i` — `lastWrite` walks the
write sequence `0, 1, ..., (k % C), ...` and returns the last write
landing on slot `i` — irrespective of what the slot held before (the
overwrite never inspects the previous occupant's lifetime). -/
theorem ring_buffer_wraparound (buf : ℕ → TrailParticle) (ps : List TrailParticle)
    (hlen : maxTrailParticles < ps.length)
    (hlive : ∀ p ∈ ps, 0 < p.lifetime)
    (i : ℕ) (hi : i < maxTrailParticles) :
    0 < (writeSlots buf 0 ps i).lifetime ∧
      ∃ q, lastWrite 0 ps i = some q ∧ writeSlots buf 0 ps i = q ∧ q ∈ ps := by
  have hchar := writeSlots_eq_lastWrite ps buf 0 i
  have hsome : (lastWrite 0 ps i).isSome :=
    lastWrite_isSome ps 0 i i (by norm_num [maxTrailParticles])
      (lt_trans hi hlen) (by simp [Nat.mod_eq_of_lt hi])
  obtain ⟨q, hq⟩ := Option.isSome_iff_exists.mp hsome
  have hmem := lastWrite_mem ps 0 i q hq
  have hval : writeSlots buf 0 ps i = q := by
    rw [hchar, hq]
    rfl
  exact ⟨hval ▸ hlive q hmem, q, hq, hval, hmem⟩

theorem ring_buffer_wraparound_witness :
    0 < (writeSlots (fun _ => initTrailParticle 0) 0
        (List.replicate (maxTrailParticles + 1) (spawnParticle 0 0 0 0 0 0 0)) 0).lifetime ∧
      ∃ q, lastWrite 0
            (List.replicate (maxTrailParticles + 1) (spawnParticle 0 0 0 0 0 0 0)) 0 = some q ∧
          writeSlots (fun _ => initTrailParticle 0) 0
            (List.replicate (maxTrailParticles + 1) (spawnParticle 0 0 0 0 0 0 0)) 0 = q ∧
          q ∈ List.replicate (maxTrailParticles + 1) (spawnParticle 0 0 0 0 0 0 0) :=
  ring_buffer_wraparound (fun _ => initTrailParticle 0)
    (List.replicate (maxTrailParticles + 1) (spawnParticle 0 0 0 0 0 0 0))
    (by simp)
    (by
      intro p hp
      rw [List.eq_of_mem_replicate hp]
      norm_num [spawnParticle, trailMaxLife])
    0 (by norm_num [maxTrailParticles])

/-- C5: with `emissionRate = 0.02` and an empty emission timer, one tick
with `delta = 0.1` runs the emission while-loop exactly 5 times
(`emissionTimer = 0 + 0.1`, each pass subtracts `emissionRate` rather than
resetting the timer, so accumulated time is never discarded), leaving a
leftover timer of exactly 0; each burst writes `particlesPerEmit = 20`
particles, and writing the resulting `5 * particlesPerEmit` spawned
particles into the all-expired initial buffer makes exactly the slots
`0 ≤ i < 100` live. -/
theorem emission_burst_scenario (buf : ℕ → TrailParticle) (ps : List TrailParticle)
    (hbuf : ∀ i, (buf i).lifetime = 0)
    (hlen : ps.length = 5 * particlesPerEmit)
    (hlive : ∀ p ∈ ps, p.lifetime = trailMaxLife) :
    (emissionLoop (0 + 1 / 10)).1 = 5 ∧ (emissionLoop (0 + 1 / 10)).2 = 0 ∧
      ∀ i, i < maxTrailParticles →
        (0 < (writeSlots buf 0 ps i).lifetime ↔ i < 5 * particlesPerEmit) := by
  have hloop : emissionLoop (0 + 1 / 10) = (5, 0) := by
    rw [show (0 + 1 / 10 : ℚ) = 1 / 10 by norm_num]
    rw [emissionLoop_step _ (by norm_num [emissionRate])]
    rw [show (1 / 10 - emissionRate : ℚ) = 8 / 100 by norm_num [emissionRate]]
    rw [emissionLoop_step _ (by norm_num [emissionRate])]
    rw [show (8 / 100 - emissionRate : ℚ) = 6 / 100 by norm_num [emissionRate]]
    rw [emissionLoop_step _ (by norm_num [emissionRate])]
    rw [show (6 / 100 - emissionRate : ℚ) = 4 / 100 by norm_num [emissionRate]]
    rw [emissionLoop_step _ (by norm_num [emissionRate])]
    rw [show (4 / 100 - emissionRate : ℚ) = 2 / 100 by norm_num [emissionRate]]
    rw [emissionLoop_step _ (by norm_num [emissionRate])]
    rw [show (2 / 100 - emissionRate : ℚ) = 0 by norm_num [emissionRate]]
    rw [emissionLoop_stop _ (by norm_num [emissionRate])]
  refine ⟨by rw [hloop], by rw [hloop], ?_⟩
  intro i hi
  have hchar := writeSlots_eq_lastWrite ps buf 0 i
  constructor
  · intro hpos
    by_contra hge
    have hnone : lastWrite 0 ps i = none := by
      refine lastWrite_eq_none ps 0 i (by norm_num [maxTrailParticles]) ?_
      intro j hj
      rw [hlen] at hj
      have hj' : (0 + j) % maxTrailParticles = j := by
        have : j < maxTrailParticles := by
          calc j < 5 * particlesPerEmit := hj
            _ < maxTrailParticles := by norm_num [particlesPerEmit, maxTrailParticles]
        simp [Nat.mod_eq_of_lt this]
      rw [hj']
      omega
    rw [hchar, hnone] at hpos
    simp only [Option.getD_none] at hpos
    rw [hbuf i] at hpos
    exact lt_irrefl 0 hpos
  · intro hlt
    have hsome : (lastWrite 0 ps i).isSome :=
      lastWrite_isSome ps 0 i i (by norm_num [maxTrailParticles])
        (by omega) (by simp [Nat.mod_eq_of_lt hi])
    obtain ⟨q, hq⟩ := Option.isSome_iff_exists.mp hsome
    have hmem := lastWrite_mem ps 0 i q hq
    rw [hchar, hq]
    simp only [Option.getD_some]
    rw [hlive q hmem, trailMaxLife]
    norm_num

theorem emission_burst_scenario_witness :
    (emissionLoop (0 + 1 / 10)).1 = 5 ∧ (emissionLoop (0 + 1 / 10)).2 = 0 ∧
      ∀ i, i < maxTrailParticles →
        (0 < (writeSlots (fun _ => initTrailParticle 0) 0
            (List.replicate (5 * particlesPerEmit) (spawnParticle 0 0 0 0 0 0 0)) i).lifetime ↔
          i < 5 * particlesPerEmit) :=
  emission_burst_scenario (fun _ => initTrailParticle 0)
    (List.replicate (5 * particlesPerEmit) (spawnParticle 0 0 0 0 0 0 0))
    (fun _ => rfl)
    (by simp)
    (by
      intro p hp
      rw [List.eq_of_mem_replicate hp]
      rfl)

/-- C2 (counterexample): `baseZ` is not derived from the polar sample.
At draws `ua = 0, ur = 0` the polar sample has radius `sqrt(0)*R = 0`, so
any coordinate derived from it is 0 — in particular the polar z is 0 —
yet the source's `baseZ` at draw `uz = 1` is `(1 - 0.5)*12*2 = 12 ≠ 0`. -/
theorem blade_baseZ_not_polar :
    bladeBaseZ 1 = 12 ∧ specPolarBaseZ 0 0 = 0 ∧ bladeBaseZ 1 ≠ specPolarBaseZ 0 0 := by
  have h1 : bladeBaseZ 1 = 12 := by
    rw [bladeBaseZ, grassRadiusR, grassRadius]
    norm_num
  have h2 : specPolarBaseZ 0 0 = 0 := by
    rw [specPolarBaseZ, bladeRadius, Real.sqrt_zero]
    ring
  refine ⟨h1, h2, ?_⟩
  rw [h1, h2]
  norm_num

/-- C2 (amended): at field initialization, each blade's `baseX` is derived
from a uniform-area polar disk sample (`radius_i = sqrt(uniform()) * R`,
`angle_i = uniform()*2π`, `baseX = cos(angle_i)*radius_i`), while `baseZ`
is sampled independently and uniformly from `[-R, R]` as
`(uniform() - 0.5) * R * 2`; for draws in `[0, 1]` both coordinates lie in
`[-R, R]`. -/
theorem blade_seed_sampling (ua ur uz : ℝ) (_hur0 : 0 ≤ ur) (hur1 : ur ≤ 1)
    (huz0 : 0 ≤ uz) (huz1 : uz ≤ 1) :
    bladeBaseX ua ur = Real.cos (bladeAngle ua) * (Real.sqrt ur * grassRadiusR) ∧
      -grassRadiusR ≤ bladeBaseX ua ur ∧ bladeBaseX ua ur ≤ grassRadiusR ∧
      bladeBaseZ uz = (uz - 1 / 2) * grassRadiusR * 2 ∧
      -grassRadiusR ≤ bladeBaseZ uz ∧ bladeBaseZ uz ≤ grassRadiusR := by
  have hRval : grassRadiusR = 12 := by
    rw [grassRadiusR, grassRadius]
    norm_num
  have hs0 : 0 ≤ Real.sqrt ur := Real.sqrt_nonneg ur
  have hs1 : Real.sqrt ur ≤ 1 := by
    rw [show (1 : ℝ) = Real.sqrt 1 from Real.sqrt_one.symm]
    exact Real.sqrt_le_sqrt hur1
  have hc1 : Real.cos (bladeAngle ua) ≤ 1 := Real.cos_le_one _
  have hc2 : -1 ≤ Real.cos (bladeAngle ua) := Real.neg_one_le_cos _
  refine ⟨rfl, ?_, ?_, rfl, ?_, ?_⟩
  · rw [bladeBaseX, bladeRadius, hRval]
    nlinarith
  · rw [bladeBaseX, bladeRadius, hRval]
    nlinarith
  · rw [bladeBaseZ, hRval]
    nlinarith
  · rw [bladeBaseZ, hRval]
    nlinarith

theorem blade_seed_sampling_witness :
    bladeBaseX 0 1 = Real.cos (bladeAngle 0) * (Real.sqrt 1 * grassRadiusR) ∧
      -grassRadiusR ≤ bladeBaseX 0 1 ∧ bladeBaseX 0 1 ≤ grassRadiusR ∧
      bladeBaseZ 1 = ((1 : ℝ) - 1 / 2) * grassRadiusR * 2 ∧
      -grassRadiusR ≤ bladeBaseZ 1 ∧ bladeBaseZ 1 ≤ grassRadiusR :=
  blade_seed_sampling 0 1 1 (by norm_num) (by norm_num) (by norm_num) (by norm_num)

/-- C7: blade visibility is the pure predicate
`hypot(baseX, currentZ) <= R` on `(baseX, currentZ, R)` — equivalently
`baseX² + currentZ² ≤ R²` for `R ≥ 0` — so a blade at distance exactly R
is visible; and every particle of an invisible blade has its y entry in
the position buffer set to the sentinel -1000. -/
theorem visibility_pure_function (x z R : ℝ) (hR : 0 ≤ R) :
    (isVisible x z R ↔ x * x + z * z ≤ R * R) ∧
      (hypotR x z = R → isVisible x z R) ∧
      ∀ (b : BladeShape) (time z' : ℝ) (i : ℕ) (p : ℝ × ℝ × ℝ),
        ¬ isVisible b.baseX z' grassRadiusR →
          (updateGrassParticle b time z' i p).2.1 = -1000 := by
  refine ⟨?_, ?_, ?_⟩
  · rw [isVisible, hypotR, Real.sqrt_le_left hR, pow_two]
  · intro h
    rw [isVisible, h]
  · intro b time z' i p h
    simp only [updateGrassParticle]
    rw [if_neg h]

theorem visibility_pure_function_witness :
    ((isVisible 3 4 12 ↔ (3 : ℝ) * 3 + 4 * 4 ≤ 12 * 12) ∧
        (hypotR 3 4 = 12 → isVisible 3 4 12) ∧
        ∀ (b : BladeShape) (time z' : ℝ) (i : ℕ) (p : ℝ × ℝ × ℝ),
          ¬ isVisible b.baseX z' grassRadiusR →
            (updateGrassParticle b time z' i p).2.1 = -1000) :=
  visibility_pure_function 3 4 12 (by norm_num)

/-- C8: in the hologram fragment shading, when `fresnel = 0` (the viewer
looks straight along the normal, `|dot| = 1`, where indeed the Fresnel
term `(1 - |dot|)^2` vanishes), the alpha reduces exactly to the additive
base constant: `clamp(0*0.85 + 0.45, 0, 1) = 0.45` in the anim2.js deer
variant, and `0*0.7 + 0.15 = 0.15` in the script.js variant. -/
theorem hologram_alpha_base_term :
    fresnelTerm 1 = 0 ∧ hologramAlphaDeer 0 = 45 / 100 ∧
      hologramAlphaVariant 0 = 15 / 100 := by
  refine ⟨?_, ?_, ?_⟩
  · rw [fresnelTerm, show |(1 : ℝ)| = 1 by norm_num, sub_self]
    exact Real.zero_rpow two_ne_zero
  · rw [hologramAlphaDeer, clampR]
    norm_num
  · rw [hologramAlphaVariant]
    norm_num

/-- C9: whenever the camera's horizontal distance from the origin exceeds
`fieldRadius * 1.2`, its x and z components are both rescaled by
`(fieldRadius*1.2) / distance`, the resulting horizontal distance is
exactly `fieldRadius * 1.2`, and the y (height) coordinate is left
unchanged by this rule. -/
theorem camera_clamp_horizontal (x y z R : ℝ) (hR : 0 < R)
    (hd : R * 1.2 < hypotR x z) :
    hypotR (camClampA x y z R).1 (camClampA x y z R).2.2 = R * 1.2 ∧
      (camClampA x y z R).2.1 = y ∧
      (camClampA x y z R).1 = x * ((R * 1.2) / hypotR x z) ∧
      (camClampA x y z R).2.2 = z * ((R * 1.2) / hypotR x z) := by
  have hm0 : 0 < R * 1.2 := by nlinarith
  have hd0 : 0 < hypotR x z := lt_trans hm0 hd
  have hout : camClampA x y z R =
      (x * ((R * 1.2) / hypotR x z), y, z * ((R * 1.2) / hypotR x z)) := by
    simp only [camClampA]
    rw [if_pos hd]
  have hs0 : 0 ≤ (R * 1.2) / hypotR x z := div_nonneg hm0.le hd0.le
  refine ⟨?_, by rw [hout], by rw [hout], by rw [hout]⟩
  rw [hout]
  show hypotR (x * ((R * 1.2) / hypotR x z)) (z * ((R * 1.2) / hypotR x z)) = R * 1.2
  rw [hypotR]
  have harg : x * ((R * 1.2) / hypotR x z) * (x * ((R * 1.2) / hypotR x z)) +
      z * ((R * 1.2) / hypotR x z) * (z * ((R * 1.2) / hypotR x z)) =
      (x * x + z * z) * ((R * 1.2) / hypotR x z) ^ 2 := by ring
  rw [harg, Real.sqrt_mul (add_nonneg (mul_self_nonneg x) (mul_self_nonneg z)), Real.sqrt_sq hs0]
  have hxz : Real.sqrt (x * x + z * z) = hypotR x z := rfl
  rw [hxz]
  field_simp

theorem camera_clamp_horizontal_witness :
    hypotR (camClampA 30 5 40 12).1 (camClampA 30 5 40 12).2.2 = 12 * 1.2 ∧
      (camClampA 30 5 40 12).2.1 = 5 ∧
      (camClampA 30 5 40 12).1 = 30 * ((12 * 1.2) / hypotR 30 40) ∧
      (camClampA 30 5 40 12).2.2 = 40 * ((12 * 1.2) / hypotR 30 40) :=
  camera_clamp_horizontal 30 5 40 12 (by norm_num)
    (by
      rw [hypotR, show (30 : ℝ) * 30 + 40 * 40 = 50 ^ 2 by norm_num,
        Real.sqrt_sq (by norm_num : (0 : ℝ) ≤ 50)]
      norm_num)

/-- C10: hiding an invisible blade overwrites only the y entries of its
particles (to -1000) while the x and z entries keep their previous buffer
values; over any run of frames in which the blade stays invisible the x
and z entries are exactly those left by the last visible frame (or the
initial values if there was none); and on a visible frame all three
entries are freshly recomputed, independent of the previous buffer
content. -/
theorem hide_overwrites_only_y (b : BladeShape) (i : ℕ) (time z : ℝ)
    (p : ℝ × ℝ × ℝ) :
    (¬ isVisible b.baseX z grassRadiusR →
        updateGrassParticle b time z i p = (p.1, -1000, p.2.2)) ∧
      (isVisible b.baseX z grassRadiusR →
        updateGrassParticle b time z i p =
          (displacedX b z time i, origPosY b i, displacedZ b z time i)) ∧
      ∀ (ctxs : List (ℝ × ℝ)) (z₀ : ℝ) (p₀ : ℝ × ℝ × ℝ),
        allInvisible b ctxs z₀ →
          (runGrassFrames b i ctxs z₀ p₀).2.1 = p₀.1 ∧
            (runGrassFrames b i ctxs z₀ p₀).2.2.2 = p₀.2.2 := by
  refine ⟨?_, ?_, ?_⟩
  · intro h
    simp only [updateGrassParticle]
    rw [if_neg h]
  · intro h
    simp only [updateGrassParticle]
    rw [if_pos h]
  · intro ctxs
    induction ctxs with
    | nil => intro z₀ p₀ _; exact ⟨rfl, rfl⟩
    | cons c rest ih =>
        intro z₀ p₀ hinv
        obtain ⟨t, d⟩ := c
        rw [allInvisible] at hinv
        obtain ⟨h1, h2⟩ := hinv
        have hupd : updateGrassParticle b t (advanceBladeZR d z₀) i p₀ =
            (p₀.1, -1000, p₀.2.2) := by
          simp only [updateGrassParticle]
          rw [if_neg h1]
        show (runGrassFrames b i rest (advanceBladeZR d z₀)
            (updateGrassParticle b t (advanceBladeZR d z₀) i p₀)).2.1 = p₀.1 ∧
          (runGrassFrames b i rest (advanceBladeZR d z₀)
            (updateGrassParticle b t (advanceBladeZR d z₀) i p₀)).2.2.2 = p₀.2.2
        rw [hupd]
        exact ih (advanceBladeZR d z₀) (p₀.1, -1000, p₀.2.2) h2

theorem hide_overwrites_only_y_witness :
    ¬ isVisible (13 : ℝ) (advanceBladeZR 1 0) grassRadiusR ∧
      (runGrassFrames { baseX := 13, height := 1, curve := 0, randomOffset := 0 } 0
          [(0, 1)] 0 (5, 6, 7)).2.1 = 5 ∧
      (runGrassFrames { baseX := 13, height := 1, curve := 0, randomOffset := 0 } 0
          [(0, 1)] 0 (5, 6, 7)).2.2.2 = 7 := by
  have hz : advanceBladeZR 1 0 = -8 := by
    simp only [advanceBladeZR, runSpeedR, runSpeed, grassRadiusR, grassRadius]
    norm_num
  have hinv : ¬ isVisible (13 : ℝ) (advanceBladeZR 1 0) grassRadiusR := by
    rw [hz, isVisible, hypotR, grassRadiusR, grassRadius]
    rw [not_le]
    push_cast
    rw [show (13 : ℝ) * 13 + -8 * -8 = 233 by norm_num]
    rw [show (12 : ℝ) = Real.sqrt (12 ^ 2) from
      (Real.sqrt_sq (by norm_num)).symm]
    exact Real.sqrt_lt_sqrt (by norm_num) (by norm_num)
  have hall : allInvisible { baseX := 13, height := 1, curve := 0, randomOffset := 0 }
      [(0, 1)] 0 := by
    rw [allInvisible]
    exact ⟨hinv, trivial⟩
  have := (hide_overwrites_only_y
      { baseX := 13, height := 1, curve := 0, randomOffset := 0 } 0 0 0 (5, 6, 7)).2.2
      [(0, 1)] 0 (5, 6, 7) hall
  exact ⟨hinv, this.1, this.2⟩

end Patronus
